import Mathlib

/-!
Verification of the libaacs crypto core (`src/libaacs/crypto.c`) against its
natural-language specification.

The file embeds the C source shallowly:
* byte buffers are `List Nat` with a `< 256` well-formedness condition where needed;
* the gcrypt MPI serialisation routines (`gcry_mpi_scan` / `gcry_mpi_print` with
  format `GCRYMPI_FMT_USG`) are modelled as big-endian conversions;
* the AES block cipher and SHA-1 are external collaborators and appear as abstract
  function parameters;
* the elliptic-curve layer (`ec.c`, included by the repository but not present in
  the sources) and the gcrypt ECDSA engine are modelled from the spec: points form
  an abstract additive commutative monoid, scalar multiplication is iterated
  addition, and ECDSA sign/verify are the textbook operations over that group.

Definitions come first, then the supporting lemmas, then one theorem per claim
(with witnesses and counterexamples).
-/

/-! ### Big-endian byte-string arithmetic (gcry_mpi_scan / gcry_mpi_print model) -/

/-- Modelled from the spec: `gcry_mpi_scan (GCRYMPI_FMT_USG)` interprets a byte
buffer as an unsigned big-endian integer. -/
def beBytesToNat (l : List Nat) : Nat :=
  l.foldl (fun a b => a * 256 + b) 0

/-- Fuel-driven worker for `natToMinBE` (structural recursion so that concrete
witnesses evaluate inside the kernel). -/
def natToMinBEAux : Nat → Nat → List Nat
  | 0, _ => []
  | fuel+1, n => if n = 0 then [] else natToMinBEAux fuel (n / 256) ++ [n % 256]

/-- Modelled from the spec: the minimal big-endian encoding of a natural number,
as produced by `gcry_mpi_print (GCRYMPI_FMT_USG)`; zero encodes as the empty
string. -/
def natToMinBE (n : Nat) : List Nat := natToMinBEAux n n

/-- The fixed-width big-endian encoding of a natural number (keeps the low
`w` bytes). -/
def natToFixedBE : Nat → Nat → List Nat
  | 0, _ => []
  | w+1, n => natToFixedBE w (n / 256) ++ [n % 256]

/-- Modelled from the spec: `gcry_mpi_print (GCRYMPI_FMT_USG)` into a fixed-size
buffer writes the minimal encoding at the start of the buffer and leaves the
remaining bytes of the buffer with their previous content; if the buffer is too
short the call fails without writing. -/
def writeUSG (enc old : List Nat) : List Nat :=
  if enc.length ≤ old.length then enc ++ old.drop enc.length else old

/-! ### AES-G3 (`_aesg3`, `crypto_aesg3`)

The AES block cipher itself is an external collaborator; it enters as an
abstract parameter `dec : key → block → block` (AES-128-ECB single-block
decryption). -/

/-- Byte-wise XOR of two equal-length byte strings (the C `for` loops XORing
16-byte arrays). -/
def xorBytes (a b : List Nat) : List Nat := List.zipWith (fun x y => x ^^^ y) a b

/-- The fixed AES-G3 seed constant from `_aesg3` in crypto.c. -/
def aesg3_seed : List Nat :=
  [0x7B, 0x10, 0x3C, 0x5D, 0xCB, 0x08, 0xC4, 0xE5,
   0x1A, 0x27, 0xB0, 0x17, 0x99, 0x05, 0x3B, 0xD9]

/-- `_aesg3` from crypto.c: increment the seed's last byte by `inc` (8-bit
wrap-around on the `uint8_t` store), AES-decrypt the seed under `src_key`, and
XOR the result with the seed. -/
def _aesg3 (dec : List Nat → List Nat → List Nat) (src_key : List Nat) (inc : Nat) :
    List Nat :=
  let seed := aesg3_seed.set 15 ((aesg3_seed.getD 15 0 + inc) % 256)
  xorBytes (dec src_key seed) seed

/-- The seed block as the spec describes it: the fixed constant
`7B103C5DCB08C4E51A27B01799053BD9` with its last byte incremented by `inc`
modulo 256. -/
def aesg3SeedSpec (inc : Nat) : List Nat :=
  [0x7B, 0x10, 0x3C, 0x5D, 0xCB, 0x08, 0xC4, 0xE5,
   0x1A, 0x27, 0xB0, 0x17, 0x99, 0x05, 0x3B, (0xD9 + inc) % 256]

/-- `crypto_aesg3` from crypto.c: derives the left subkey (increment 0), the
right subkey (increment 2) and the processing key (increment 1); a `false` flag
models a NULL output pointer, for which nothing is computed (`none`). -/
def crypto_aesg3 (dec : List Nat → List Nat → List Nat) (D : List Nat)
    (lsubk rsubk pk : Bool) :
    Option (List Nat) × Option (List Nat) × Option (List Nat) :=
  (if lsubk then some (_aesg3 dec D 0) else none,
   if rsubk then some (_aesg3 dec D 2) else none,
   if pk then some (_aesg3 dec D 1) else none)

/-! ### 128-bit left shift and single-block AES-CMAC
(`_shl_128`, `_cmac_key`, `crypto_aes_cmac_16`) -/

/-- The loop of `_shl_128`, iterating from the last byte to the first; the
second component is the carry propagated to the caller (the top bit of the
first processed byte). -/
def shlAux : List Nat → List Nat × Nat
  | [] => ([], 0)
  | b :: rest =>
    let r := shlAux rest
    (((b <<< 1) ||| r.2) % 256 :: r.1, b >>> 7)

/-- `_shl_128` from crypto.c: one-bit left shift of a 16-byte big-endian value
(the final carry out of byte 0 is discarded). -/
def _shl_128 (src : List Nat) : List Nat := (shlAux src).1

/-- `_cmac_key` from crypto.c: CMAC subkey generation. `enc` is the abstract
AES-128-ECB single-block encryption; `L = enc(aes_key, 0^16)`; `k1` is `L`
shifted left one bit, with `0x87` XORed into the last byte if `L`'s top bit was
set; `k2` is derived from `k1` the same way. -/
def _cmac_key (enc : List Nat → List Nat → List Nat) (aes_key : List Nat) :
    List Nat × List Nat :=
  let key := enc aes_key (List.replicate 16 0)
  let k1 := _shl_128 key
  let k1x := if key.getD 0 0 &&& 0x80 ≠ 0 then k1.set 15 (k1.getD 15 0 ^^^ 0x87) else k1
  let k2 := _shl_128 k1x
  let k2x := if k1x.getD 0 0 &&& 0x80 ≠ 0 then k2.set 15 (k2.getD 15 0 ^^^ 0x87) else k2
  (k1x, k2x)

/-- `crypto_aes_cmac_16` from crypto.c: single-block AES-CMAC — XOR the 16-byte
data block with subkey `k1` and encrypt under `aes_key`. -/
def crypto_aes_cmac_16 (enc : List Nat → List Nat → List Nat)
    (data aes_key : List Nat) : List Nat :=
  enc aes_key (xorBytes (data.take 16) (_cmac_key enc aes_key).1)

/-- XOR a constant into the last byte of a byte string (the spec's "XOR the
last byte with 0x87"). -/
def xorLastByte (l : List Nat) (c : Nat) : List Nat :=
  l.set (l.length - 1) (l.getD (l.length - 1) 0 ^^^ c)

/-- The CMAC subkey `K1` as the spec describes it: interpret
`L = enc(aes_key, 0^16)` as a 128-bit integer, shift left one bit discarding
the carry, and XOR `0x87` into the last byte exactly when the most significant
bit of `L` was set. -/
def cmacK1Spec (enc : List Nat → List Nat → List Nat) (aes_key : List Nat) :
    List Nat :=
  let L := beBytesToNat (enc aes_key (List.replicate 16 0))
  let base := natToFixedBE 16 ((2 * L) % 2 ^ 128)
  if 2 ^ 127 ≤ L then xorLastByte base 0x87 else base

/-! ### Certificate verification and the gcrypt public-key layer -/

/-- The C macro `MKINT_BE16`: 16-bit big-endian field at a byte offset. -/
def MKINT_BE16 (l : List Nat) (off : Nat) : Nat :=
  ((l.getD off 0) <<< 8) ||| l.getD (off + 1) 0

/-- Abstract interface to the gcrypt public-key layer used by crypto.c.
`sexpKey q_x q_y priv?` models `_aacs_sexp_key`, `sexpSha1` models
`_aacs_sexp_sha1`, `sexpSig` models `_aacs_sexp_signature`; each may fail
(`none`, i.e. a nonzero `gcry_error_t`).  `pkSign` models `gcry_pk_sign`
(returning the `(r, s)` pair, or failing) and `pkVerify` models
`gcry_pk_verify` (`true` = success). -/
structure GcryOps (K D S : Type) where
  sexpKey : List Nat → List Nat → Option (List Nat) → Option K
  sexpSha1 : List Nat → Option D
  sexpSig : List Nat → Option S
  pkSign : D → K → Option (Nat × Nat)
  pkVerify : S → D → K → Bool

/-- `_aacs_verify` from crypto.c: build the public-key, digest and signature
S-expressions in that order (any failure yields `false`, i.e. a nonzero error
returned to the caller which negates it), then call `gcry_pk_verify`. -/
def _aacs_verify {K D S : Type} (ops : GcryOps K D S)
    (signature q_x q_y data : List Nat) : Bool :=
  match ops.sexpKey q_x q_y none with
  | none => false
  | some key =>
    match ops.sexpSha1 data with
    | none => false
    | some dg =>
      match ops.sexpSig signature with
      | none => false
      | some sg => ops.pkVerify sg dg key

/-- `crypto_aacs_verify` from crypto.c: verify against the public point stored
at certificate offsets 12 (x) and 32 (y). -/
def crypto_aacs_verify {K D S : Type} (ops : GcryOps K D S)
    (cert signature data : List Nat) : Bool :=
  _aacs_verify ops signature ((cert.drop 12).take 20) ((cert.drop 32).take 20) data

/-- x-coordinate of the hardcoded AACS licensing-authority public key. -/
def aacs_la_pubkey_x : List Nat :=
  [0x63, 0xC2, 0x1D, 0xFF, 0xB2, 0xB2, 0x79, 0x8A, 0x13, 0xB5,
   0x8D, 0x61, 0x16, 0x6C, 0x4E, 0x4A, 0xAC, 0x8A, 0x07, 0x72]

/-- y-coordinate of the hardcoded AACS licensing-authority public key. -/
def aacs_la_pubkey_y : List Nat :=
  [0x13, 0x7E, 0xC6, 0x38, 0x81, 0x8F, 0xD9, 0x8F, 0xA4, 0xC3,
   0x0B, 0x99, 0x67, 0x28, 0xBF, 0x4B, 0x91, 0x7F, 0x6A, 0x27]

/-- `crypto_aacs_verify_aacsla` from crypto.c: verify a signature against the
fixed licensing-authority root public key. -/
def crypto_aacs_verify_aacsla {K D S : Type} (ops : GcryOps K D S)
    (signature data : List Nat) : Bool :=
  _aacs_verify ops signature aacs_la_pubkey_x aacs_la_pubkey_y data

/-- `crypto_aacs_verify_cert` from crypto.c: reject unless the 16-bit
big-endian length field at offset 2 equals 0x005c, then verify the 40-byte
signature at offset 52 over certificate bytes 0..52 against the
licensing-authority root key. -/
def crypto_aacs_verify_cert {K D S : Type} (ops : GcryOps K D S)
    (cert : List Nat) : Bool :=
  if MKINT_BE16 cert 2 ≠ 0x5c then false
  else crypto_aacs_verify_aacsla ops ((cert.drop 52).take 40) (cert.take 52)

/-- `crypto_aacs_verify_host_cert` from crypto.c: type byte must be 0x02, then
the certificate must verify. -/
def crypto_aacs_verify_host_cert {K D S : Type} (ops : GcryOps K D S)
    (cert : List Nat) : Bool :=
  if cert.getD 0 0 ≠ 0x02 then false
  else if ¬ crypto_aacs_verify_cert ops cert then false
  else true

/-- `crypto_aacs_verify_drive_cert` from crypto.c: type byte must be 0x01, then
the certificate must verify. -/
def crypto_aacs_verify_drive_cert {K D S : Type} (ops : GcryOps K D S)
    (cert : List Nat) : Bool :=
  if cert.getD 0 0 ≠ 0x01 then false
  else if ¬ crypto_aacs_verify_cert ops cert then false
  else true

/-- `crypto_aacs_sign` from crypto.c.  The C function is `void` and writes the
signature through a caller-supplied 40-byte buffer, so the embedding returns
the final contents of that buffer (`sigbuf` being its initial contents): on any
failure of the key build, the digest build or `gcry_pk_sign` the function jumps
to `error` before the output is written, leaving the buffer unchanged.  On
success `r` and `s` are written with `gcry_mpi_print` into the two fixed
20-byte halves. -/
def crypto_aacs_sign {K D S : Type} (ops : GcryOps K D S)
    (cert priv_key nonce point sigbuf : List Nat) : List Nat :=
  match ops.sexpKey ((cert.drop 12).take 20) ((cert.drop 32).take 20)
      (some (priv_key.take 20)) with
  | none => sigbuf
  | some key =>
    match ops.sexpSha1 (nonce.take 20 ++ point.take 40) with
    | none => sigbuf
    | some dg =>
      match ops.pkSign dg key with
      | none => sigbuf
      | some rs =>
        writeUSG (natToMinBE rs.1) (sigbuf.take 20) ++
          writeUSG (natToMinBE rs.2) (sigbuf.drop 20)

/-! ### The elliptic-curve layer and ECDSA

The EC point arithmetic lives in `ec.c` (repository code not present under
`src/`), and the ECDSA engine is gcrypt's; both are modelled from the spec. -/

/-- Modelled from the spec: the curve domain of `ec.c` (CurveDomain, §4.1).
Points form an abstract additive commutative monoid `P`; `G` is the base
point, `n` the order of the scalar group, `affine` the projective-to-affine
coordinate extraction (`_gcry_mpi_ec_get_affine`), and `ofAffine` the
construction of a point from affine coordinates with z = 1. -/
structure CurveModel (P : Type) [AddCommMonoid P] where
  G : P
  n : Nat
  affine : P → Nat × Nat
  ofAffine : Nat → Nat → P

/-- Modelled from the spec: `scalarMultiply(point, scalar)`
(`_gcry_mpi_ec_mul_point`) computes the scalar multiple of a point, i.e.
iterated point addition. -/
def scalarMultiply {P : Type} [AddCommMonoid P] (d : Nat) (p : P) : P := d • p

/-- Fuel-driven extended Euclid: `egcd fuel a b = (x, y)` with
`x*a + y*b = gcd a b` (given enough fuel). Structural recursion so concrete
witnesses evaluate in the kernel. -/
def egcd : Nat → Nat → Nat → Int × Int
  | 0, _, _ => (1, 0)
  | fuel+1, a, b =>
    if b = 0 then (1, 0)
    else
      let p := egcd fuel b (a % b)
      (p.2, p.1 - p.2 * (a / b : Nat))

/-- Modelled from the spec: the modular inverse used inside gcrypt's ECDSA
(`k⁻¹ mod n`, `s⁻¹ mod n`). -/
def invMod (a n : Nat) : Nat :=
  if n = 0 then 0
  else ((((egcd (a + n + 1) a n).1 % (n : Int)) + (n : Int)) % (n : Int)).toNat

/-- Modelled from the spec: the ECDSA `r` component produced by `gcry_pk_sign`
with ephemeral nonce `k` — the x-coordinate of `k × G` reduced mod `n`. -/
def ecdsaR {P : Type} [AddCommMonoid P] (cm : CurveModel P) (k : Nat) : Nat :=
  (cm.affine (scalarMultiply k cm.G)).1 % cm.n

/-- Modelled from the spec: the ECDSA `s` component produced by `gcry_pk_sign`
with ephemeral nonce `k`: `s = k⁻¹ (z + r d) mod n`. -/
def ecdsaS {P : Type} [AddCommMonoid P] (cm : CurveModel P) (d k z : Nat) : Nat :=
  (invMod k cm.n * (z + ecdsaR cm k * d)) % cm.n

/-- Modelled from the spec: `gcry_pk_sign` for ECDSA over the AACS curve,
with ephemeral nonce `k`, private scalar `d` and digest value `z`; fails if
either signature half degenerates to zero. -/
def ecdsa_sign {P : Type} [AddCommMonoid P] (cm : CurveModel P) (d k z : Nat) :
    Option (Nat × Nat) :=
  if ecdsaR cm k = 0 ∨ ecdsaS cm d k z = 0 then none
  else some (ecdsaR cm k, ecdsaS cm d k z)

/-- Modelled from the spec: `gcry_pk_verify` for ECDSA — check
`0 < r, s < n`, compute `w = s⁻¹ mod n`, `u1 = z w mod n`, `u2 = r w mod n`,
and accept iff the x-coordinate of `u1 × G + u2 × Q` reduced mod `n`
equals `r`. -/
def ecdsa_verify {P : Type} [AddCommMonoid P] (cm : CurveModel P)
    (qx qy r s z : Nat) : Bool :=
  if r = 0 ∨ s = 0 ∨ cm.n ≤ r ∨ cm.n ≤ s then false
  else
    (cm.affine (scalarMultiply (z * invMod s cm.n % cm.n) cm.G +
      scalarMultiply (r * invMod s cm.n % cm.n) (cm.ofAffine qx qy))).1 % cm.n == r

/-- `_aacs_sexp_key` instantiated with the modelled MPI layer: scan the two
20-byte coordinates and the optional 20-byte private scalar. -/
def gcrySexpKeyEcdsa (q_x q_y : List Nat) (priv : Option (List Nat)) :
    Option (Nat × Nat × Option Nat) :=
  some (beBytesToNat (q_x.take 20), beBytesToNat (q_y.take 20),
    priv.map beBytesToNat)

/-- `_aacs_sexp_sha1` instantiated with an abstract SHA-1: the digest object
wraps the 20-byte hash as a raw integer. -/
def gcrySexpSha1 (sha1 : List Nat → List Nat) (block : List Nat) : Option Nat :=
  some (beBytesToNat (sha1 block))

/-- `_aacs_sexp_signature` instantiated with the modelled MPI layer: split the
40-byte buffer into two 20-byte big-endian integers. -/
def gcrySexpSignature (signature : List Nat) : Option (Nat × Nat) :=
  some (beBytesToNat (signature.take 20), beBytesToNat ((signature.drop 20).take 20))

/-- The gcrypt public-key layer instantiated with the modelled ECDSA engine
over a curve model `cm`, abstract SHA-1, and ephemeral sign nonce `k`. -/
def gcryEcdsa {P : Type} [AddCommMonoid P] (cm : CurveModel P)
    (sha1 : List Nat → List Nat) (k : Nat) :
    GcryOps (Nat × Nat × Option Nat) Nat (Nat × Nat) where
  sexpKey := gcrySexpKeyEcdsa
  sexpSha1 := gcrySexpSha1 sha1
  sexpSig := gcrySexpSignature
  pkSign := fun z key =>
    match key.2.2 with
    | none => none
    | some d => ecdsa_sign cm d k z
  pkVerify := fun sg z key => ecdsa_verify cm key.1 key.2.1 sg.1 sg.2 z

/-- `crypto_create_bus_key` from crypto.c: scan the 20-byte private key and
the two 20-byte peer-point coordinates (z = 1), multiply, convert to affine,
print the x-coordinate into a buffer (`n` bytes written) and copy the 16 bytes
at offset `n - 16`.  When `n < 16` that `memcpy` reads before the written
data (undefined behaviour in C); the embedding returns `none` there. -/
def crypto_create_bus_key {P : Type} [AddCommMonoid P] (cm : CurveModel P)
    (priv_key drive_key_point : List Nat) : Option (List Nat) :=
  let d := beBytesToNat (priv_key.take 20)
  let qx := beBytesToNat (drive_key_point.take 20)
  let qy := beBytesToNat ((drive_key_point.drop 20).take 20)
  let R := scalarMultiply d (cm.ofAffine qx qy)
  let enc := natToMinBE (cm.affine R).1
  if 16 ≤ enc.length then some (enc.drop (enc.length - 16)) else none

/-- `crypto_create_host_key_pair` from crypto.c.  The random 20 bytes drawn by
`gcry_randomize` enter as the parameter `host_key`; the public point is the
affine form of `host_key × G`, its coordinates printed with `gcry_mpi_print`
into the two 20-byte halves of the caller's buffer (initial contents
`ptbuf`). -/
def crypto_create_host_key_pair {P : Type} [AddCommMonoid P] (cm : CurveModel P)
    (host_key ptbuf : List Nat) : List Nat × List Nat :=
  let d := beBytesToNat (host_key.take 20)
  let q := cm.affine (scalarMultiply d cm.G)
  (host_key,
    writeUSG (natToMinBE q.1) (ptbuf.take 20) ++
      writeUSG (natToMinBE q.2) ((ptbuf.drop 20).take 20))

/-! ### Concrete instances used by witnesses and counterexamples -/

/-- A trivial gcrypt layer where every build succeeds and every signature
verifies; used to witness that the certificate format checks reject before any
cryptographic work. -/
def opsTrivial : GcryOps Unit Unit Unit where
  sexpKey := fun _ _ _ => some ()
  sexpSha1 := fun _ => some ()
  sexpSig := fun _ => some ()
  pkSign := fun _ _ => some (1, 1)
  pkVerify := fun _ _ _ => true

/-- A gcrypt layer whose key build always fails; used to witness the error
propagation of `crypto_aacs_sign`. -/
def opsKeyFail : GcryOps Unit Unit Unit where
  sexpKey := fun _ _ _ => none
  sexpSha1 := fun _ => some ()
  sexpSig := fun _ => some ()
  pkSign := fun _ _ => some (1, 1)
  pkVerify := fun _ _ _ => true

/-- A tiny curve model whose affine coordinates are small numbers; exhibits the
short-minimal-encoding edge cases. -/
def cmSmallX : CurveModel (ZMod 5) where
  G := 1
  n := 5
  affine := fun pt => (pt.val, pt.val)
  ofAffine := fun x _ => (x : ZMod 5)

/-- A tiny curve model whose affine x-coordinates always occupy exactly 16
bytes; used to witness the bus-key slice. -/
def cmBigX : CurveModel (ZMod 5) where
  G := 1
  n := 5
  affine := fun pt => (2 ^ 127 + pt.val, pt.val)
  ofAffine := fun x _ => (x : ZMod 5)

/-- A tiny curve model whose affine coordinates always occupy exactly 20
bytes and whose scalar order is a 159-bit number; used to witness the
sign/verify round trip. -/
def cmWide : CurveModel (ZMod 5) where
  G := 1
  n := 5 * 2 ^ 156
  affine := fun pt => (2 ^ 159 + pt.val, 2 ^ 158 + pt.val)
  ofAffine := fun x _ => ((x - 2 ^ 159 : Nat) : ZMod 5)

/-! ### Lemmas: big-endian arithmetic -/

theorem beBytesToNat_nil : beBytesToNat [] = 0 := rfl

theorem foldl_be_init (l : List Nat) (a : Nat) :
    l.foldl (fun a b => a * 256 + b) a = a * 256 ^ l.length + beBytesToNat l := by
  induction l generalizing a with
  | nil => simp [beBytesToNat]
  | cons b t ih =>
    simp only [List.foldl_cons, beBytesToNat, List.length_cons]
    rw [ih (a * 256 + b), ih (0 * 256 + b)]
    ring

theorem beBytesToNat_cons (b : Nat) (t : List Nat) :
    beBytesToNat (b :: t) = b * 256 ^ t.length + beBytesToNat t := by
  simpa [beBytesToNat] using foldl_be_init t b

theorem beBytesToNat_append (xs ys : List Nat) :
    beBytesToNat (xs ++ ys) = beBytesToNat xs * 256 ^ ys.length + beBytesToNat ys := by
  simp only [beBytesToNat, List.foldl_append]
  exact foldl_be_init ys _

theorem beBytesToNat_concat (xs : List Nat) (b : Nat) :
    beBytesToNat (xs ++ [b]) = beBytesToNat xs * 256 + b := by
  rw [beBytesToNat_append]
  have h1 : beBytesToNat [b] = b := by simp [beBytesToNat]
  have h2 : ([b] : List Nat).length = 1 := rfl
  rw [h1, h2, pow_one]

theorem beBytesToNat_lt (l : List Nat) (h : ∀ b ∈ l, b < 256) :
    beBytesToNat l < 256 ^ l.length := by
  induction l with
  | nil => simp [beBytesToNat]
  | cons b t ih =>
    have hb : b < 256 := h b (by simp)
    have ht := ih (fun x hx => h x (by simp [hx]))
    rw [beBytesToNat_cons]
    calc b * 256 ^ t.length + beBytesToNat t
        < b * 256 ^ t.length + 256 ^ t.length := by omega
      _ = (b + 1) * 256 ^ t.length := by ring
      _ ≤ 256 * 256 ^ t.length := by
          exact Nat.mul_le_mul_right _ (by omega)
      _ = 256 ^ (b :: t).length := by
          simp [List.length_cons, pow_succ]; ring

theorem natToMinBEAux_eq : ∀ n f f', n ≤ f → n ≤ f' →
    natToMinBEAux f n = natToMinBEAux f' n := by
  intro n
  induction n using Nat.strong_induction_on with
  | _ n ih =>
    intro f f' hf hf'
    by_cases h0 : n = 0
    · subst h0
      rcases f with _ | f <;> rcases f' with _ | f' <;> simp [natToMinBEAux]
    · obtain ⟨f1, rfl⟩ : ∃ f1, f = f1 + 1 := ⟨f - 1, by omega⟩
      obtain ⟨f2, rfl⟩ : ∃ f2, f' = f2 + 1 := ⟨f' - 1, by omega⟩
      show (if n = 0 then [] else natToMinBEAux f1 (n / 256) ++ [n % 256]) =
        (if n = 0 then [] else natToMinBEAux f2 (n / 256) ++ [n % 256])
      rw [if_neg h0, if_neg h0]
      have hlt : n / 256 < n := Nat.div_lt_self (Nat.pos_of_ne_zero h0) (by norm_num)
      rw [ih (n / 256) hlt f1 f2 (by omega) (by omega)]

theorem natToMinBE_zero : natToMinBE 0 = [] := rfl

theorem natToMinBE_pos (n : Nat) (h : n ≠ 0) :
    natToMinBE n = natToMinBE (n / 256) ++ [n % 256] := by
  obtain ⟨m, rfl⟩ : ∃ m, n = m + 1 := ⟨n - 1, by omega⟩
  show natToMinBEAux (m + 1) (m + 1) = natToMinBE ((m + 1) / 256) ++ [(m + 1) % 256]
  have hstep : natToMinBEAux (m + 1) (m + 1) =
      natToMinBEAux m ((m + 1) / 256) ++ [(m + 1) % 256] := by
    show (if m + 1 = 0 then [] else natToMinBEAux m ((m + 1) / 256) ++ [(m + 1) % 256]) = _
    rw [if_neg h]
  rw [hstep]
  have : natToMinBEAux m ((m + 1) / 256) = natToMinBE ((m + 1) / 256) := by
    apply natToMinBEAux_eq <;> omega
  rw [this]

theorem beBytesToNat_natToMinBE (n : Nat) : beBytesToNat (natToMinBE n) = n := by
  induction n using Nat.strong_induction_on with
  | _ n ih =>
    by_cases h : n = 0
    · simp [h, natToMinBE_zero, beBytesToNat_nil]
    · rw [natToMinBE_pos n h, beBytesToNat_concat,
        ih (n / 256) (Nat.div_lt_self (Nat.pos_of_ne_zero h) (by norm_num))]
      omega

theorem natToMinBE_mem_lt (n : Nat) : ∀ b ∈ natToMinBE n, b < 256 := by
  induction n using Nat.strong_induction_on with
  | _ n ih =>
    by_cases h : n = 0
    · simp [h, natToMinBE_zero]
    · rw [natToMinBE_pos n h]
      intro b hb
      rcases List.mem_append.mp hb with hb' | hb'
      · exact ih (n / 256) (Nat.div_lt_self (Nat.pos_of_ne_zero h) (by norm_num)) b hb'
      · simp at hb'
        omega

theorem natToMinBE_length_le (n w : Nat) (h : n < 256 ^ w) :
    (natToMinBE n).length ≤ w := by
  induction w generalizing n with
  | zero =>
    simp at h
    simp [h, natToMinBE_zero]
  | succ w ih =>
    by_cases h0 : n = 0
    · simp [h0, natToMinBE_zero]
    · rw [natToMinBE_pos n h0]
      have : n / 256 < 256 ^ w := by
        rw [pow_succ] at h
        omega
      have := ih (n / 256) this
      simp [List.length_append]
      omega

theorem natToMinBE_lt_of_length_le (n w : Nat) (h : (natToMinBE n).length ≤ w) :
    n < 256 ^ w := by
  by_contra hc
  push_neg at hc
  have hlt := beBytesToNat_lt (natToMinBE n) (natToMinBE_mem_lt n)
  rw [beBytesToNat_natToMinBE] at hlt
  have : (256:Nat) ^ (natToMinBE n).length ≤ 256 ^ w :=
    Nat.pow_le_pow_right (by norm_num) h
  omega

theorem natToFixedBE_length (w n : Nat) : (natToFixedBE w n).length = w := by
  induction w generalizing n with
  | zero => rfl
  | succ w ih => simp [natToFixedBE, ih]

theorem natToFixedBE_mem_lt (w n : Nat) : ∀ b ∈ natToFixedBE w n, b < 256 := by
  induction w generalizing n with
  | zero => simp [natToFixedBE]
  | succ w ih =>
    intro b hb
    simp only [natToFixedBE] at hb
    rcases List.mem_append.mp hb with hb' | hb'
    · exact ih (n / 256) b hb'
    · simp at hb'
      omega

theorem beBytesToNat_natToFixedBE (w n : Nat) :
    beBytesToNat (natToFixedBE w n) = n % 256 ^ w := by
  induction w generalizing n with
  | zero => simp [natToFixedBE, beBytesToNat_nil, Nat.mod_one]
  | succ w ih =>
    rw [natToFixedBE, beBytesToNat_concat, ih]
    have h1 : 256 * (n / 256) + n % 256 = n := Nat.div_add_mod n 256
    have h2 : n / 256 = 256 ^ w * (n / 256 / 256 ^ w) + n / 256 % 256 ^ w :=
      (Nat.div_add_mod _ _).symm
    have hlt : n / 256 % 256 ^ w * 256 + n % 256 < 256 ^ (w + 1) := by
      have : n / 256 % 256 ^ w < 256 ^ w := Nat.mod_lt _ (Nat.pos_pow_of_pos _ (by norm_num))
      have hm : n % 256 < 256 := Nat.mod_lt _ (by norm_num)
      rw [pow_succ]
      omega
    have hdecomp : n = 256 ^ (w + 1) * (n / 256 / 256 ^ w) +
        (n / 256 % 256 ^ w * 256 + n % 256) := by
      rw [pow_succ]
      nlinarith [h1, h2]
    calc n / 256 % 256 ^ w * 256 + n % 256
        = (256 ^ (w+1) * (n / 256 / 256 ^ w) + (n / 256 % 256 ^ w * 256 + n % 256))
            % 256 ^ (w+1) := by
          rw [Nat.mul_add_mod]
          exact (Nat.mod_eq_of_lt hlt).symm
      _ = n % 256 ^ (w + 1) := by rw [← hdecomp]

theorem natToFixedBE_mod (w n : Nat) :
    natToFixedBE w (n % 256 ^ w) = natToFixedBE w n := by
  induction w generalizing n with
  | zero => rfl
  | succ w ih =>
    simp only [natToFixedBE]
    have hmod : n % 256 ^ (w + 1) % 256 = n % 256 := by
      rw [Nat.mod_mod_of_dvd]
      exact ⟨256 ^ w, by rw [pow_succ]; ring⟩
    have hdiv : n % 256 ^ (w + 1) / 256 = n / 256 % 256 ^ w := by
      rw [pow_succ, mul_comm (256 ^ w) 256, Nat.mod_mul_right_div_self]
    rw [hmod, hdiv, ih]

theorem natToFixedBE_beBytesToNat (l : List Nat) (h : ∀ b ∈ l, b < 256) :
    natToFixedBE l.length (beBytesToNat l) = l := by
  induction l using List.reverseRecOn with
  | nil => rfl
  | append_singleton xs b ih =>
    have hb : b < 256 := h b (by simp)
    have hxs : ∀ x ∈ xs, x < 256 := fun x hx => h x (by simp [hx])
    rw [List.length_append]
    simp only [List.length_cons, List.length_nil]
    rw [beBytesToNat_concat]
    show natToFixedBE (xs.length + 1) _ = _
    rw [natToFixedBE]
    have hdiv : (beBytesToNat xs * 256 + b) / 256 = beBytesToNat xs := by omega
    have hmod : (beBytesToNat xs * 256 + b) % 256 = b := by omega
    rw [hdiv, hmod, ih hxs]

theorem drop_eq_natToFixedBE (l : List Nat) (w : Nat) (hw : w ≤ l.length)
    (hb : ∀ b ∈ l, b < 256) :
    l.drop (l.length - w) = natToFixedBE w (beBytesToNat l) := by
  set k := l.length - w with hk
  have hsplit : l = l.take k ++ l.drop k := (List.take_append_drop k l).symm
  have hdlen : (l.drop k).length = w := by
    rw [List.length_drop]
    omega
  have hdb : ∀ b ∈ l.drop k, b < 256 := fun b hbm => hb b (List.mem_of_mem_drop hbm)
  have hval : beBytesToNat l = beBytesToNat (l.take k) * 256 ^ w + beBytesToNat (l.drop k) := by
    conv_lhs => rw [hsplit]
    rw [beBytesToNat_append, hdlen]
  have hlt : beBytesToNat (l.drop k) < 256 ^ w := by
    have := beBytesToNat_lt (l.drop k) hdb
    rwa [hdlen] at this
  have hmod : beBytesToNat l % 256 ^ w = beBytesToNat (l.drop k) := by
    rw [hval, mul_comm (beBytesToNat (l.take k)) (256 ^ w), Nat.mul_add_mod]
    exact Nat.mod_eq_of_lt hlt
  rw [← natToFixedBE_mod, hmod, ← hdlen, natToFixedBE_beBytesToNat _ hdb]

/-! ### Lemmas: the 128-bit shift -/

set_option maxRecDepth 10000 in
theorem shl_byte_step :
    ∀ b < 256, ∀ o < 2, ((b <<< 1) ||| o) % 256 = (2 * b) % 256 + o := by
  decide

theorem shlAux_spec (l : List Nat) (hb : ∀ b ∈ l, b < 256) :
    beBytesToNat (shlAux l).1 = (2 * beBytesToNat l) % 256 ^ l.length ∧
    (shlAux l).2 = (2 * beBytesToNat l) / 256 ^ l.length ∧
    (shlAux l).1.length = l.length := by
  induction l with
  | nil => simp [shlAux, beBytesToNat_nil]
  | cons b rest ih =>
    obtain ⟨ihv, iho, ihl⟩ := ih (fun x hx => hb x (by simp [hx]))
    have hblt : b < 256 := hb b (by simp)
    have hpowpos : 0 < 256 ^ rest.length := Nat.pos_pow_of_pos _ (by norm_num)
    have hNrlt : beBytesToNat rest < 256 ^ rest.length :=
      beBytesToNat_lt rest (fun x hx => hb x (by simp [hx]))
    have hov1 : (shlAux rest).2 < 2 := by
      rw [iho]
      exact (Nat.div_lt_iff_lt_mul hpowpos).mpr (by omega)
    have hdm : 256 ^ rest.length * (shlAux rest).2 +
        (2 * beBytesToNat rest) % 256 ^ rest.length = 2 * beBytesToNat rest := by
      rw [iho]
      exact Nat.div_add_mod _ _
    have hr0lt : (2 * beBytesToNat rest) % 256 ^ rest.length < 256 ^ rest.length :=
      Nat.mod_lt _ hpowpos
    have hstep : ((b <<< 1) ||| (shlAux rest).2) % 256 = (2 * b) % 256 + (shlAux rest).2 :=
      shl_byte_step b hblt _ hov1
    have hkey : 2 * beBytesToNat (b :: rest) =
        (2 * b + (shlAux rest).2) * 256 ^ rest.length +
          (2 * beBytesToNat rest) % 256 ^ rest.length := by
      rw [beBytesToNat_cons]
      have hexp : (2 * b + (shlAux rest).2) * 256 ^ rest.length +
          (2 * beBytesToNat rest) % 256 ^ rest.length =
          2 * b * 256 ^ rest.length +
            (256 ^ rest.length * (shlAux rest).2 +
              (2 * beBytesToNat rest) % 256 ^ rest.length) := by ring
      rw [hexp, hdm]
      ring
    have hm : 2 * b + (shlAux rest).2 =
        256 * ((2 * b + (shlAux rest).2) / 256) + ((2 * b) % 256 + (shlAux rest).2) := by
      omega
    have hdecomp : 2 * beBytesToNat (b :: rest) =
        256 ^ (rest.length + 1) * ((2 * b + (shlAux rest).2) / 256) +
          (((2 * b) % 256 + (shlAux rest).2) * 256 ^ rest.length +
            (2 * beBytesToNat rest) % 256 ^ rest.length) := by
      rw [hkey]
      conv_lhs => rw [hm]
      rw [pow_succ]
      ring
    have hsmall : ((2 * b) % 256 + (shlAux rest).2) * 256 ^ rest.length +
        (2 * beBytesToNat rest) % 256 ^ rest.length < 256 ^ (rest.length + 1) := by
      have h1 : (2 * b) % 256 + (shlAux rest).2 ≤ 255 := by omega
      have h2 : ((2 * b) % 256 + (shlAux rest).2) * 256 ^ rest.length ≤
          255 * 256 ^ rest.length := Nat.mul_le_mul_right _ h1
      rw [pow_succ]
      omega
    refine ⟨?_, ?_, ?_⟩
    · show beBytesToNat (((b <<< 1) ||| (shlAux rest).2) % 256 :: (shlAux rest).1) = _
      rw [beBytesToNat_cons, ihl, hstep, ihv]
      rw [List.length_cons, hdecomp, Nat.mul_add_mod]
      exact (Nat.mod_eq_of_lt hsmall).symm
    · show b >>> 7 = _
      rw [List.length_cons, hdecomp]
      rw [Nat.mul_add_div (Nat.pos_pow_of_pos _ (by norm_num))]
      rw [Nat.div_eq_of_lt hsmall, Nat.add_zero]
      rw [Nat.shiftRight_eq_div_pow]
      omega
    · show (((b <<< 1) ||| (shlAux rest).2) % 256 :: (shlAux rest).1).length = _
      simp [ihl]

theorem shlAux_mem_lt (l : List Nat) : ∀ x ∈ (shlAux l).1, x < 256 := by
  induction l with
  | nil => simp [shlAux]
  | cons b rest ih =>
    intro x hx
    have hx' : x ∈ ((b <<< 1) ||| (shlAux rest).2) % 256 :: (shlAux rest).1 := hx
    rcases List.mem_cons.mp hx' with h | h
    · omega
    · exact ih x h

theorem shlAux_getD (l : List Nat) : ∀ i, i < l.length →
    (shlAux l).1.getD i 0 = ((l.getD i 0 <<< 1) ||| (l.getD (i + 1) 0 >>> 7)) % 256 := by
  induction l with
  | nil => intro i hi; simp at hi
  | cons b rest ih =>
    intro i hi
    match i with
    | 0 =>
      have hcarry : (shlAux rest).2 = rest.getD 0 0 >>> 7 := by
        cases rest with
        | nil => simp [shlAux]
        | cons c t => simp [shlAux]
      show ((b <<< 1) ||| (shlAux rest).2) % 256 = _
      rw [hcarry]
      rfl
    | i + 1 =>
      have hi' : i < rest.length := by simpa using hi
      show (shlAux rest).1.getD i 0 = _
      rw [ih i hi']
      rfl

set_option maxRecDepth 10000 in
theorem byte_and80 : ∀ b < 256, (b &&& 0x80 ≠ 0 ↔ 128 ≤ b) := by
  decide

theorem msb_iff (l : List Nat) (hlen : l.length = 16) (hb : ∀ b ∈ l, b < 256) :
    (l.getD 0 0 &&& 0x80 ≠ 0) ↔ 2 ^ 127 ≤ beBytesToNat l := by
  cases l with
  | nil => simp at hlen
  | cons b rest =>
    have hrl : rest.length = 15 := by simpa using hlen
    have hblt : b < 256 := hb b (by simp)
    have hNr : beBytesToNat rest < 256 ^ 15 := by
      have := beBytesToNat_lt rest (fun x hx => hb x (by simp [hx]))
      rwa [hrl] at this
    have hand : (b &&& 0x80 ≠ 0) ↔ 128 ≤ b := byte_and80 b hblt
    rw [List.getD_cons_zero, beBytesToNat_cons, hrl, hand]
    have hp1 : (256:Nat) ^ 15 = 1329227995784915872903807060280344576 := by norm_num
    have hp2 : (2:Nat) ^ 127 = 170141183460469231731687303715884105728 := by norm_num
    rw [hp1] at *
    rw [hp2]
    omega

theorem shl_128_eq_fixed (l : List Nat) (hlen : l.length = 16)
    (hb : ∀ b ∈ l, b < 256) :
    _shl_128 l = natToFixedBE 16 ((2 * beBytesToNat l) % 2 ^ 128) := by
  have h256 : (256:Nat) ^ 16 = 2 ^ 128 := by norm_num
  obtain ⟨hval, -, hslen⟩ := shlAux_spec l hb
  have hs256 : ∀ x ∈ _shl_128 l, x < 256 := shlAux_mem_lt l
  have hlen' : (_shl_128 l).length = 16 := by
    show (shlAux l).1.length = 16
    rw [hslen, hlen]
  have hfix : natToFixedBE 16 (beBytesToNat (_shl_128 l)) = _shl_128 l := by
    have := natToFixedBE_beBytesToNat (_shl_128 l) hs256
    rwa [hlen'] at this
  rw [← hfix]
  show natToFixedBE 16 (beBytesToNat (shlAux l).1) = _
  rw [hval, hlen, h256]

theorem cmac_k1_eq (enc : List Nat → List Nat → List Nat) (aes_key : List Nat)
    (hlen : (enc aes_key (List.replicate 16 0)).length = 16)
    (hb : ∀ b ∈ enc aes_key (List.replicate 16 0), b < 256) :
    (_cmac_key enc aes_key).1 = cmacK1Spec enc aes_key := by
  have hshl := shl_128_eq_fixed (enc aes_key (List.replicate 16 0)) hlen hb
  have hmsb := msb_iff (enc aes_key (List.replicate 16 0)) hlen hb
  have hbaselen : (natToFixedBE 16
      ((2 * beBytesToNat (enc aes_key (List.replicate 16 0))) % 2 ^ 128)).length = 16 :=
    natToFixedBE_length _ _
  show (if (enc aes_key (List.replicate 16 0)).getD 0 0 &&& 0x80 ≠ 0 then
      (_shl_128 (enc aes_key (List.replicate 16 0))).set 15
        ((_shl_128 (enc aes_key (List.replicate 16 0))).getD 15 0 ^^^ 0x87)
    else _shl_128 (enc aes_key (List.replicate 16 0))) = cmacK1Spec enc aes_key
  unfold cmacK1Spec
  by_cases hc : 2 ^ 127 ≤ beBytesToNat (enc aes_key (List.replicate 16 0))
  · rw [if_pos (hmsb.mpr hc), if_pos hc, hshl]
    unfold xorLastByte
    rw [hbaselen]
  · rw [if_neg (fun hx => hc (hmsb.mp hx)), if_neg hc, hshl]

/-! ### Claim C6 -/

/-- C6: for every 16-byte input, `_shl_128` produces the 128-bit value shifted
left by one bit (the carry out of byte 0 discarded), each output byte being the
input byte shifted left with the carry bit of the adjacent byte at the next
higher index (the less significant side, processed first) merged into its low
bit. -/
theorem C6_shl_128_correct (src : List Nat) (h1 : src.length = 16)
    (h2 : ∀ b ∈ src, b < 256) :
    beBytesToNat (_shl_128 src) = (2 * beBytesToNat src) % 2 ^ 128 ∧
    (_shl_128 src).length = 16 ∧
    (∀ i < 16, (_shl_128 src).getD i 0 =
      ((src.getD i 0 <<< 1) ||| (src.getD (i + 1) 0 >>> 7)) % 256) := by
  obtain ⟨hval, -, hslen⟩ := shlAux_spec src h2
  have h256 : (256:Nat) ^ 16 = 2 ^ 128 := by norm_num
  refine ⟨?_, ?_, ?_⟩
  · show beBytesToNat (shlAux src).1 = _
    rw [hval, h1, h256]
  · show (shlAux src).1.length = 16
    rw [hslen, h1]
  · intro i hi
    exact shlAux_getD src i (by omega)

/-- Witness for C6 at a concrete 16-byte input. -/
theorem C6_witness :
    (([0x80, 0x01, 0xFF, 0x00, 0x12, 0x34, 0x56, 0x78,
       0x9A, 0xBC, 0xDE, 0xF0, 0x0F, 0x80, 0x7F, 0xFF] : List Nat).length = 16 ∧
     (∀ b ∈ ([0x80, 0x01, 0xFF, 0x00, 0x12, 0x34, 0x56, 0x78,
       0x9A, 0xBC, 0xDE, 0xF0, 0x0F, 0x80, 0x7F, 0xFF] : List Nat), b < 256)) ∧
    (beBytesToNat (_shl_128 [0x80, 0x01, 0xFF, 0x00, 0x12, 0x34, 0x56, 0x78,
       0x9A, 0xBC, 0xDE, 0xF0, 0x0F, 0x80, 0x7F, 0xFF]) =
      (2 * beBytesToNat [0x80, 0x01, 0xFF, 0x00, 0x12, 0x34, 0x56, 0x78,
        0x9A, 0xBC, 0xDE, 0xF0, 0x0F, 0x80, 0x7F, 0xFF]) % 2 ^ 128 ∧
     (_shl_128 [0x80, 0x01, 0xFF, 0x00, 0x12, 0x34, 0x56, 0x78,
       0x9A, 0xBC, 0xDE, 0xF0, 0x0F, 0x80, 0x7F, 0xFF]).length = 16 ∧
     (∀ i < 16, (_shl_128 [0x80, 0x01, 0xFF, 0x00, 0x12, 0x34, 0x56, 0x78,
        0x9A, 0xBC, 0xDE, 0xF0, 0x0F, 0x80, 0x7F, 0xFF]).getD i 0 =
       ((([0x80, 0x01, 0xFF, 0x00, 0x12, 0x34, 0x56, 0x78,
          0x9A, 0xBC, 0xDE, 0xF0, 0x0F, 0x80, 0x7F, 0xFF] : List Nat).getD i 0 <<< 1) |||
        (([0x80, 0x01, 0xFF, 0x00, 0x12, 0x34, 0x56, 0x78,
          0x9A, 0xBC, 0xDE, 0xF0, 0x0F, 0x80, 0x7F, 0xFF] : List Nat).getD (i + 1) 0 >>> 7))
         % 256)) :=
  ⟨⟨by decide, by decide⟩,
   C6_shl_128_correct
     [0x80, 0x01, 0xFF, 0x00, 0x12, 0x34, 0x56, 0x78,
      0x9A, 0xBC, 0xDE, 0xF0, 0x0F, 0x80, 0x7F, 0xFF] (by decide) (by decide)⟩

/-! ### Claim C4 -/

/-- C4: for every key and increment, `_aesg3` outputs
`dec(K, seed') XOR seed'` where `seed'` is the fixed seed with its last byte
incremented by `inc` modulo 256, and `crypto_aesg3` maps increment 0 to the
left subkey, 2 to the right subkey, 1 to the processing key, computing only the
requested outputs. -/
theorem C4_aesg3_correct (dec : List Nat → List Nat → List Nat) (D : List Nat)
    (lsubk rsubk pk : Bool) :
    crypto_aesg3 dec D lsubk rsubk pk =
      ((if lsubk then some (xorBytes (dec D (aesg3SeedSpec 0)) (aesg3SeedSpec 0)) else none),
       (if rsubk then some (xorBytes (dec D (aesg3SeedSpec 2)) (aesg3SeedSpec 2)) else none),
       (if pk then some (xorBytes (dec D (aesg3SeedSpec 1)) (aesg3SeedSpec 1)) else none)) ∧
    (∀ inc, _aesg3 dec D inc = xorBytes (dec D (aesg3SeedSpec inc)) (aesg3SeedSpec inc)) :=
  ⟨rfl, fun _ => rfl⟩

/-! ### Claim C5 -/

/-- C5: for every 16-byte data block and AES key, `crypto_aes_cmac_16` returns
`enc(aes_key, data XOR K1)` where `K1` is `L = enc(aes_key, 0^16)` shifted left
one bit (as a 128-bit integer), with `0x87` XORed into the last byte exactly
when the most significant bit of `L` was set. -/
theorem C5_cmac16_correct (enc : List Nat → List Nat → List Nat)
    (data aes_key : List Nat)
    (hlen : (enc aes_key (List.replicate 16 0)).length = 16)
    (hb : ∀ b ∈ enc aes_key (List.replicate 16 0), b < 256) :
    crypto_aes_cmac_16 enc data aes_key =
      enc aes_key (xorBytes (data.take 16) (cmacK1Spec enc aes_key)) := by
  unfold crypto_aes_cmac_16
  rw [cmac_k1_eq enc aes_key hlen hb]

/-- Witness for C5 with a concrete (constant) block cipher, data and key. -/
theorem C5_witness :
    (((fun (_ _ : List Nat) => [0xAB, 0x01, 0x80, 0x55, 0x21, 0x43, 0x65, 0x87,
        0x0A, 0x0B, 0x0C, 0x0D, 0x0E, 0x0F, 0x10, 0x11]) ([0x02] : List Nat)
        (List.replicate 16 0)).length = 16 ∧
     (∀ b ∈ (fun (_ _ : List Nat) => [0xAB, 0x01, 0x80, 0x55, 0x21, 0x43, 0x65, 0x87,
        0x0A, 0x0B, 0x0C, 0x0D, 0x0E, 0x0F, 0x10, 0x11]) ([0x02] : List Nat)
        (List.replicate 16 0), b < 256)) ∧
    crypto_aes_cmac_16
      (fun (_ _ : List Nat) => [0xAB, 0x01, 0x80, 0x55, 0x21, 0x43, 0x65, 0x87,
        0x0A, 0x0B, 0x0C, 0x0D, 0x0E, 0x0F, 0x10, 0x11])
      (List.replicate 16 0x5C) [0x02] =
      (fun (_ _ : List Nat) => [0xAB, 0x01, 0x80, 0x55, 0x21, 0x43, 0x65, 0x87,
        0x0A, 0x0B, 0x0C, 0x0D, 0x0E, 0x0F, 0x10, 0x11]) [0x02]
        (xorBytes ((List.replicate 16 0x5C).take 16)
          (cmacK1Spec (fun (_ _ : List Nat) => [0xAB, 0x01, 0x80, 0x55, 0x21, 0x43, 0x65, 0x87,
            0x0A, 0x0B, 0x0C, 0x0D, 0x0E, 0x0F, 0x10, 0x11]) [0x02])) :=
  ⟨⟨by decide, by decide⟩,
   C5_cmac16_correct
     (fun (_ _ : List Nat) => [0xAB, 0x01, 0x80, 0x55, 0x21, 0x43, 0x65, 0x87,
       0x0A, 0x0B, 0x0C, 0x0D, 0x0E, 0x0F, 0x10, 0x11])
     (List.replicate 16 0x5C) [0x02] (by decide) (by decide)⟩

/-! ### Claim C7 -/

/-- C7: for every certificate buffer, `crypto_aacs_verify_cert` returns false
whenever the 16-bit big-endian length field at offset 2 differs from 0x005c —
for every gcrypt layer, so before any cryptographic work — and when the field
equals 0x005c it returns exactly the verification of the 40-byte signature at
offset 52 over bytes 0..52 against the fixed licensing-authority root key. -/
theorem C7_verify_cert_length_check (cert : List Nat) :
    (MKINT_BE16 cert 2 ≠ 0x5c →
      ∀ (K D S : Type) (ops : GcryOps K D S),
        crypto_aacs_verify_cert ops cert = false) ∧
    (MKINT_BE16 cert 2 = 0x5c →
      ∀ (K D S : Type) (ops : GcryOps K D S),
        crypto_aacs_verify_cert ops cert =
          _aacs_verify ops ((cert.drop 52).take 40) aacs_la_pubkey_x aacs_la_pubkey_y
            (cert.take 52)) := by
  constructor
  · intro h K D S ops
    unfold crypto_aacs_verify_cert
    rw [if_pos h]
  · intro h K D S ops
    unfold crypto_aacs_verify_cert crypto_aacs_verify_aacsla
    rw [if_neg (by simp [h])]

/-- Witness for C7: an all-zero 92-byte certificate has length field 0x0000 and
is rejected even by a gcrypt layer that accepts every signature. -/
theorem C7_witness :
    MKINT_BE16 (List.replicate 92 0) 2 ≠ 0x5c ∧
    crypto_aacs_verify_cert opsTrivial (List.replicate 92 0) = false :=
  ⟨by decide,
   (C7_verify_cert_length_check (List.replicate 92 0)).1 (by decide) Unit Unit Unit opsTrivial⟩

/-! ### Claim C8 -/

/-- C8: `crypto_aacs_verify_host_cert` returns false for every gcrypt layer
(hence without evaluating the signature) when the type byte is not 0x02, and
`crypto_aacs_verify_drive_cert` when it is not 0x01; when the type byte
matches, each returns exactly `crypto_aacs_verify_cert` on the same buffer. -/
theorem C8_type_byte_checks (cert : List Nat) :
    (cert.getD 0 0 ≠ 0x02 → ∀ (K D S : Type) (ops : GcryOps K D S),
        crypto_aacs_verify_host_cert ops cert = false) ∧
    (cert.getD 0 0 = 0x02 → ∀ (K D S : Type) (ops : GcryOps K D S),
        crypto_aacs_verify_host_cert ops cert = crypto_aacs_verify_cert ops cert) ∧
    (cert.getD 0 0 ≠ 0x01 → ∀ (K D S : Type) (ops : GcryOps K D S),
        crypto_aacs_verify_drive_cert ops cert = false) ∧
    (cert.getD 0 0 = 0x01 → ∀ (K D S : Type) (ops : GcryOps K D S),
        crypto_aacs_verify_drive_cert ops cert = crypto_aacs_verify_cert ops cert) := by
  refine ⟨?_, ?_, ?_, ?_⟩
  · intro h K D S ops
    unfold crypto_aacs_verify_host_cert
    rw [if_pos h]
  · intro h K D S ops
    unfold crypto_aacs_verify_host_cert
    rw [if_neg (fun hne => hne h)]
    cases hv : crypto_aacs_verify_cert ops cert <;> simp [hv]
  · intro h K D S ops
    unfold crypto_aacs_verify_drive_cert
    rw [if_pos h]
  · intro h K D S ops
    unfold crypto_aacs_verify_drive_cert
    rw [if_neg (fun hne => hne h)]
    cases hv : crypto_aacs_verify_cert ops cert <;> simp [hv]

/-- Witness for C8: a drive-typed certificate (type byte 0x01) is rejected by
the host-certificate check even under a gcrypt layer accepting everything. -/
theorem C8_witness :
    (0x01 :: List.replicate 91 0).getD 0 0 ≠ 0x02 ∧
    crypto_aacs_verify_host_cert opsTrivial (0x01 :: List.replicate 91 0) = false :=
  ⟨by decide,
   (C8_type_byte_checks (0x01 :: List.replicate 91 0)).1 (by decide) Unit Unit Unit opsTrivial⟩

/-! ### Claim C9 -/

/-- C9: whenever the key build, the digest build or the underlying ECDSA sign
operation fails inside `crypto_aacs_sign`, the function bails out before the
output is written: the 40-byte signature buffer keeps its initial contents
(the C function is `void`, so per spec §7 the failure surfaces only as "no
signature produced"). -/
theorem C9_sign_error_propagation {K D S : Type} (ops : GcryOps K D S)
    (cert priv_key nonce point sigbuf : List Nat) :
    (ops.sexpKey ((cert.drop 12).take 20) ((cert.drop 32).take 20)
        (some (priv_key.take 20)) = none →
      crypto_aacs_sign ops cert priv_key nonce point sigbuf = sigbuf) ∧
    (∀ key, ops.sexpKey ((cert.drop 12).take 20) ((cert.drop 32).take 20)
        (some (priv_key.take 20)) = some key →
      ops.sexpSha1 (nonce.take 20 ++ point.take 40) = none →
      crypto_aacs_sign ops cert priv_key nonce point sigbuf = sigbuf) ∧
    (∀ key dg, ops.sexpKey ((cert.drop 12).take 20) ((cert.drop 32).take 20)
        (some (priv_key.take 20)) = some key →
      ops.sexpSha1 (nonce.take 20 ++ point.take 40) = some dg →
      ops.pkSign dg key = none →
      crypto_aacs_sign ops cert priv_key nonce point sigbuf = sigbuf) := by
  refine ⟨?_, ?_, ?_⟩
  · intro h
    unfold crypto_aacs_sign
    simp only [h]
  · intro key hk hs
    unfold crypto_aacs_sign
    simp only [hk, hs]
  · intro key dg hk hs hp
    unfold crypto_aacs_sign
    simp only [hk, hs, hp]

/-- Witness for C9: a gcrypt layer whose key build fails leaves the signature
buffer untouched. -/
theorem C9_witness :
    opsKeyFail.sexpKey ((([] : List Nat).drop 12).take 20)
      ((([] : List Nat).drop 32).take 20) (some (([] : List Nat).take 20)) = none ∧
    crypto_aacs_sign opsKeyFail [] [] [] [] (List.replicate 40 7) = List.replicate 40 7 :=
  ⟨rfl, (C9_sign_error_propagation opsKeyFail [] [] [] [] (List.replicate 40 7)).1 rfl⟩

/-! ### Lemmas: scalar multiplication -/

theorem scalarMultiply_mod {P : Type} [AddCommMonoid P] (G : P) (n : Nat)
    (hG : n • G = 0) (m : Nat) : (m % n) • G = m • G := by
  conv_rhs => rw [← Nat.div_add_mod m n]
  rw [add_nsmul, mul_nsmul, hG, smul_zero, zero_add]

theorem scalarMultiply_comm {P : Type} [AddCommMonoid P] (G : P) (a b : Nat) :
    scalarMultiply a (scalarMultiply b G) = scalarMultiply b (scalarMultiply a G) := by
  unfold scalarMultiply
  exact nsmul_left_comm G b a

/-! ### Claim C10 -/

/-- C10: the 16-byte bus-key copy from offset `n − 16` of the x-coordinate
buffer stays within the written bytes (the embedding's non-error branch) if and
only if the minimal big-endian encoding of the affine x-coordinate has at least
16 bytes; for shorter encodings the read starts before the encoded data (the
embedding's `none`), with no left-zero-padding performed. -/
theorem C10_bus_key_bounds {P : Type} [AddCommMonoid P] (cm : CurveModel P)
    (priv_key drive_key_point : List Nat) :
    (crypto_create_bus_key cm priv_key drive_key_point).isSome = true ↔
      16 ≤ (natToMinBE ((cm.affine (scalarMultiply (beBytesToNat (priv_key.take 20))
        (cm.ofAffine (beBytesToNat (drive_key_point.take 20))
          (beBytesToNat ((drive_key_point.drop 20).take 20))))).1)).length := by
  unfold crypto_create_bus_key
  dsimp only
  split
  next h => simpa using h
  next h => simpa using h

/-! ### Claim C2 -/

/-- C2 (amended): when the minimal big-endian encoding of the affine
x-coordinate of `R = privKey × peerPoint` has at least 16 bytes,
`crypto_create_bus_key` returns exactly its low-order 16 bytes — equivalently
the 16-byte big-endian encoding of `R.x mod 2^128`.  When the encoding is
shorter the C code reads out of bounds and no left-zero-padding is performed
(the embedding yields `none`; see the C2 counterexample). -/
theorem C2_bus_key_low16 {P : Type} [AddCommMonoid P] (cm : CurveModel P)
    (priv_key drive_key_point : List Nat)
    (h16 : 16 ≤ (natToMinBE ((cm.affine (scalarMultiply (beBytesToNat (priv_key.take 20))
      (cm.ofAffine (beBytesToNat (drive_key_point.take 20))
        (beBytesToNat ((drive_key_point.drop 20).take 20))))).1)).length) :
    crypto_create_bus_key cm priv_key drive_key_point =
      some (natToFixedBE 16 ((cm.affine (scalarMultiply (beBytesToNat (priv_key.take 20))
        (cm.ofAffine (beBytesToNat (drive_key_point.take 20))
          (beBytesToNat ((drive_key_point.drop 20).take 20))))).1 % 2 ^ 128)) := by
  unfold crypto_create_bus_key
  dsimp only
  rw [if_pos h16]
  congr 1
  have h256 : (256:Nat) ^ 16 = 2 ^ 128 := by norm_num
  rw [drop_eq_natToFixedBE _ 16 h16 (natToMinBE_mem_lt _), beBytesToNat_natToMinBE,
    ← h256, natToFixedBE_mod]

/-- Witness for C2 with a curve model whose x-coordinates occupy exactly 16
bytes. -/
theorem C2_witness :
    16 ≤ (natToMinBE ((cmBigX.affine (scalarMultiply (beBytesToNat (([2] : List Nat).take 20))
      (cmBigX.ofAffine (beBytesToNat (([3] : List Nat).take 20))
        (beBytesToNat ((([3] : List Nat).drop 20).take 20))))).1)).length ∧
    crypto_create_bus_key cmBigX [2] [3] =
      some (natToFixedBE 16 ((cmBigX.affine (scalarMultiply (beBytesToNat (([2] : List Nat).take 20))
        (cmBigX.ofAffine (beBytesToNat (([3] : List Nat).take 20))
          (beBytesToNat ((([3] : List Nat).drop 20).take 20))))).1 % 2 ^ 128)) :=
  ⟨by decide, C2_bus_key_low16 cmBigX [2] [3] (by decide)⟩

/-- Counterexample for C2 as stated: with a curve model whose affine
x-coordinate is a small number (shorter than 16 bytes), the bus-key slice is
out of bounds and the function does not return the left-zero-padded low 16
bytes the claim asserts. -/
theorem C2_counterexample :
    crypto_create_bus_key cmSmallX [2] [3] ≠
      some (natToFixedBE 16 ((cmSmallX.affine (scalarMultiply (beBytesToNat (([2] : List Nat).take 20))
        (cmSmallX.ofAffine (beBytesToNat (([3] : List Nat).take 20))
          (beBytesToNat ((([3] : List Nat).drop 20).take 20))))).1 % 2 ^ 128)) := by
  decide

/-! ### Claim C3 -/

/-- C3: ECDH symmetry — for all key pairs whose public points parse back to
`d1 × G` and `d2 × G`, `createBusKey(d1, Q2) = createBusKey(d2, Q1)`. -/
theorem C3_bus_key_symmetry {P : Type} [AddCommMonoid P] (cm : CurveModel P)
    (d1b d2b q1b q2b : List Nat)
    (hQ1 : cm.ofAffine (beBytesToNat (q1b.take 20)) (beBytesToNat ((q1b.drop 20).take 20)) =
      scalarMultiply (beBytesToNat (d1b.take 20)) cm.G)
    (hQ2 : cm.ofAffine (beBytesToNat (q2b.take 20)) (beBytesToNat ((q2b.drop 20).take 20)) =
      scalarMultiply (beBytesToNat (d2b.take 20)) cm.G) :
    crypto_create_bus_key cm d1b q2b = crypto_create_bus_key cm d2b q1b := by
  unfold crypto_create_bus_key
  dsimp only
  rw [hQ1, hQ2, scalarMultiply_comm]

/-- Witness for C3 with a tiny curve model and the key pairs `d1 = 2`,
`d2 = 3`. -/
theorem C3_witness :
    (cmSmallX.ofAffine (beBytesToNat (([2] : List Nat).take 20))
        (beBytesToNat ((([2] : List Nat).drop 20).take 20)) =
      scalarMultiply (beBytesToNat (([0, 2] : List Nat).take 20)) cmSmallX.G) ∧
    (cmSmallX.ofAffine (beBytesToNat (([3] : List Nat).take 20))
        (beBytesToNat ((([3] : List Nat).drop 20).take 20)) =
      scalarMultiply (beBytesToNat (([0, 3] : List Nat).take 20)) cmSmallX.G) ∧
    crypto_create_bus_key cmSmallX [0, 2] [3] = crypto_create_bus_key cmSmallX [0, 3] [2] :=
  ⟨by decide, by decide,
   C3_bus_key_symmetry cmSmallX [0, 2] [0, 3] [2] [3] (by decide) (by decide)⟩

/-! ### Lemmas: ECDSA round trip -/

theorem writeUSG_exact (enc old : List Nat) (h : enc.length = old.length) :
    writeUSG enc old = enc := by
  unfold writeUSG
  rw [if_pos (le_of_eq h)]
  rw [List.drop_eq_nil_of_le (le_of_eq h.symm), List.append_nil]

theorem ecdsa_roundtrip {P : Type} [AddCommMonoid P] (cm : CurveModel P)
    (d k z qx qy : Nat)
    (hn : 0 < cm.n)
    (hG : cm.n • cm.G = 0)
    (hQ : cm.ofAffine qx qy = scalarMultiply d cm.G)
    (hkinv : k * invMod k cm.n % cm.n = 1)
    (hsinv : ecdsaS cm d k z * invMod (ecdsaS cm d k z) cm.n % cm.n = 1)
    (hr0 : ecdsaR cm k ≠ 0)
    (hs0 : ecdsaS cm d k z ≠ 0) :
    ecdsa_verify cm qx qy (ecdsaR cm k) (ecdsaS cm d k z) z = true := by
  have hrlt : ecdsaR cm k < cm.n := Nat.mod_lt _ hn
  have hslt : ecdsaS cm d k z < cm.n := Nat.mod_lt _ hn
  have hn1 : 1 < cm.n := by
    have := Nat.mod_lt (k * invMod k cm.n) hn
    omega
  -- modular arithmetic: (u1 + d*u2) ≡ k [MOD n]
  have hkME : k * invMod k cm.n ≡ 1 [MOD cm.n] := by
    show k * invMod k cm.n % cm.n = 1 % cm.n
    rw [hkinv, Nat.mod_eq_of_lt hn1]
  have hsME : ecdsaS cm d k z * invMod (ecdsaS cm d k z) cm.n ≡ 1 [MOD cm.n] := by
    show _ % cm.n = 1 % cm.n
    rw [hsinv, Nat.mod_eq_of_lt hn1]
  have hsdef : ecdsaS cm d k z ≡ invMod k cm.n * (z + ecdsaR cm k * d) [MOD cm.n] := by
    show ecdsaS cm d k z % cm.n = _
    rw [Nat.mod_eq_of_lt hslt]
    rfl
  have hmain : z * invMod (ecdsaS cm d k z) cm.n % cm.n +
      d * (ecdsaR cm k * invMod (ecdsaS cm d k z) cm.n % cm.n) ≡ k [MOD cm.n] := by
    calc z * invMod (ecdsaS cm d k z) cm.n % cm.n +
        d * (ecdsaR cm k * invMod (ecdsaS cm d k z) cm.n % cm.n)
        ≡ z * invMod (ecdsaS cm d k z) cm.n +
            d * (ecdsaR cm k * invMod (ecdsaS cm d k z) cm.n) [MOD cm.n] :=
          (Nat.mod_modEq _ _).add ((Nat.mod_modEq _ _).mul_left d)
      _ = (z + ecdsaR cm k * d) * invMod (ecdsaS cm d k z) cm.n := by ring
      _ ≡ (k * invMod k cm.n) * ((z + ecdsaR cm k * d) * invMod (ecdsaS cm d k z) cm.n)
            [MOD cm.n] := by
          have := hkME.symm.mul_right ((z + ecdsaR cm k * d) * invMod (ecdsaS cm d k z) cm.n)
          simpa using this
      _ = k * ((invMod k cm.n * (z + ecdsaR cm k * d)) * invMod (ecdsaS cm d k z) cm.n) := by
          ring
      _ ≡ k * (ecdsaS cm d k z * invMod (ecdsaS cm d k z) cm.n) [MOD cm.n] :=
          Nat.ModEq.mul_left k (hsdef.symm.mul_right _)
      _ ≡ k * 1 [MOD cm.n] := Nat.ModEq.mul_left k hsME
      _ = k := by ring
  -- the verification point is k × G
  have hpoint : scalarMultiply (z * invMod (ecdsaS cm d k z) cm.n % cm.n) cm.G +
      scalarMultiply (ecdsaR cm k * invMod (ecdsaS cm d k z) cm.n % cm.n)
        (cm.ofAffine qx qy) = scalarMultiply k cm.G := by
    rw [hQ]
    unfold scalarMultiply
    rw [show (ecdsaR cm k * invMod (ecdsaS cm d k z) cm.n % cm.n) • (d • cm.G) =
      (d * (ecdsaR cm k * invMod (ecdsaS cm d k z) cm.n % cm.n)) • cm.G from
        (mul_nsmul cm.G d _).symm]
    rw [← add_nsmul]
    rw [← scalarMultiply_mod cm.G cm.n hG
      (z * invMod (ecdsaS cm d k z) cm.n % cm.n +
        d * (ecdsaR cm k * invMod (ecdsaS cm d k z) cm.n % cm.n))]
    rw [← scalarMultiply_mod cm.G cm.n hG k]
    rw [hmain]
  -- assemble
  unfold ecdsa_verify
  rw [if_neg (by push_neg; exact ⟨hr0, hs0, hrlt, hslt⟩)]
  rw [hpoint]
  show (ecdsaR cm k == ecdsaR cm k) = true
  simp

/-! ### Claim C1 -/

/-- C1 (amended): for a host key pair generated from the random bytes
`host_key`, provided the affine coordinates of `Q = d × G` and the ECDSA
values `r`, `s` all have 20-byte minimal big-endian encodings (so that the
`gcry_mpi_print` calls fill their fixed 20-byte slots exactly), the ephemeral
nonce and `s` are invertible mod `n`, and `r, s ≠ 0`: the produced public
point equals `d × G` recomputed independently, and
`verify(sign(cert, d, nonce, Q), Q.x, Q.y, nonce ‖ Q)` returns true. -/
theorem C1_sign_verify_roundtrip {P : Type} [AddCommMonoid P] (cm : CurveModel P)
    (sha1 : List Nat → List Nat) (k : Nat)
    (host_key nonce cert ptbuf sigbuf : List Nat) (x y z : Nat)
    (hn : 0 < cm.n)
    (hG : cm.n • cm.G = 0)
    (hnonce : nonce.length = 20)
    (hpt : ptbuf.length = 40)
    (hsig : sigbuf.length = 40)
    (hx : x = (cm.affine (scalarMultiply (beBytesToNat (host_key.take 20)) cm.G)).1)
    (hy : y = (cm.affine (scalarMultiply (beBytesToNat (host_key.take 20)) cm.G)).2)
    (hx20 : (natToMinBE x).length = 20)
    (hy20 : (natToMinBE y).length = 20)
    (hofa : cm.ofAffine x y = scalarMultiply (beBytesToNat (host_key.take 20)) cm.G)
    (hz : z = beBytesToNat (sha1 (nonce ++ (natToMinBE x ++ natToMinBE y))))
    (hr0 : ecdsaR cm k ≠ 0)
    (hr20 : (natToMinBE (ecdsaR cm k)).length = 20)
    (hs0 : ecdsaS cm (beBytesToNat (host_key.take 20)) k z ≠ 0)
    (hs20 : (natToMinBE (ecdsaS cm (beBytesToNat (host_key.take 20)) k z)).length = 20)
    (hkinv : k * invMod k cm.n % cm.n = 1)
    (hsinv : ecdsaS cm (beBytesToNat (host_key.take 20)) k z *
      invMod (ecdsaS cm (beBytesToNat (host_key.take 20)) k z) cm.n % cm.n = 1) :
    (beBytesToNat (((crypto_create_host_key_pair cm host_key ptbuf).2).take 20),
     beBytesToNat (((crypto_create_host_key_pair cm host_key ptbuf).2).drop 20)) =
      cm.affine (scalarMultiply (beBytesToNat (host_key.take 20)) cm.G) ∧
    _aacs_verify (gcryEcdsa cm sha1 k)
      (crypto_aacs_sign (gcryEcdsa cm sha1 k) cert host_key nonce
        ((crypto_create_host_key_pair cm host_key ptbuf).2) sigbuf)
      (((crypto_create_host_key_pair cm host_key ptbuf).2).take 20)
      (((crypto_create_host_key_pair cm host_key ptbuf).2).drop 20)
      (nonce ++ (crypto_create_host_key_pair cm host_key ptbuf).2) = true := by
  -- the printed public point is exactly the two 20-byte encodings
  have hxlen' : (natToMinBE x).length = (ptbuf.take 20).length := by
    rw [hx20, List.length_take, hpt]
    omega
  have hylen' : (natToMinBE y).length = ((ptbuf.drop 20).take 20).length := by
    rw [hy20, List.length_take, List.length_drop, hpt]
    omega
  have hQb : (crypto_create_host_key_pair cm host_key ptbuf).2 =
      natToMinBE x ++ natToMinBE y := by
    unfold crypto_create_host_key_pair
    dsimp only
    rw [← hx, ← hy, writeUSG_exact _ _ hxlen', writeUSG_exact _ _ hylen']
  have hQlen : ((crypto_create_host_key_pair cm host_key ptbuf).2).length = 40 := by
    rw [hQb, List.length_append, hx20, hy20]
  have htake : ((crypto_create_host_key_pair cm host_key ptbuf).2).take 20 =
      natToMinBE x := by
    rw [hQb, ← hx20, List.take_left]
  have hdrop : ((crypto_create_host_key_pair cm host_key ptbuf).2).drop 20 =
      natToMinBE y := by
    rw [hQb, ← hx20, List.drop_left]
  have htakex : (natToMinBE x).take 20 = natToMinBE x := by
    rw [← hx20]
    exact List.take_length _
  have htakey : (natToMinBE y).take 20 = natToMinBE y := by
    rw [← hy20]
    exact List.take_length _
  have hn20 : nonce.take 20 = nonce := by
    rw [← hnonce]
    exact List.take_length _
  have hq40 : ((crypto_create_host_key_pair cm host_key ptbuf).2).take 40 =
      (crypto_create_host_key_pair cm host_key ptbuf).2 := by
    rw [← hQlen]
    exact List.take_length _
  -- the signature buffer: the two encodings exactly fill the 20-byte slots
  have hrlen' : (natToMinBE (ecdsaR cm k)).length = (sigbuf.take 20).length := by
    rw [hr20, List.length_take, hsig]
    omega
  have hslen' : (natToMinBE (ecdsaS cm (beBytesToNat (host_key.take 20)) k z)).length =
      (sigbuf.drop 20).length := by
    rw [hs20, List.length_drop, hsig]
  -- the sign path
  have hsign : crypto_aacs_sign (gcryEcdsa cm sha1 k) cert host_key nonce
      ((crypto_create_host_key_pair cm host_key ptbuf).2) sigbuf =
      natToMinBE (ecdsaR cm k) ++
        natToMinBE (ecdsaS cm (beBytesToNat (host_key.take 20)) k z) := by
    unfold crypto_aacs_sign
    simp only [gcryEcdsa, gcrySexpKeyEcdsa, gcrySexpSha1, Option.map_some']
    rw [hn20, hq40, hQb, ← hz]
    unfold ecdsa_sign
    rw [if_neg (by push_neg; exact ⟨hr0, hs0⟩)]
    show writeUSG (natToMinBE (ecdsaR cm k)) (sigbuf.take 20) ++
        writeUSG (natToMinBE (ecdsaS cm (beBytesToNat (host_key.take 20)) k z))
          (sigbuf.drop 20) = _
    rw [writeUSG_exact _ _ hrlen', writeUSG_exact _ _ hslen']
  refine ⟨?_, ?_⟩
  · rw [htake, hdrop, beBytesToNat_natToMinBE, beBytesToNat_natToMinBE, hx, hy]
  · rw [hsign, htake, hdrop]
    -- the verify path
    unfold _aacs_verify
    simp only [gcryEcdsa, gcrySexpKeyEcdsa, gcrySexpSha1, gcrySexpSignature,
      Option.map_none']
    rw [htakex, htakey, ← hr20, List.take_left, List.drop_left, hr20]
    have htakes : (natToMinBE (ecdsaS cm (beBytesToNat (host_key.take 20)) k z)).take 20 =
        natToMinBE (ecdsaS cm (beBytesToNat (host_key.take 20)) k z) :=
      List.take_of_length_le (le_of_eq hs20)
    rw [htakes, hQb, ← hz]
    rw [beBytesToNat_natToMinBE, beBytesToNat_natToMinBE, beBytesToNat_natToMinBE,
      beBytesToNat_natToMinBE]
    exact ecdsa_roundtrip cm (beBytesToNat (host_key.take 20)) k z x y hn hG hofa
      hkinv hsinv hr0 hs0

/-- Witness for C1 with the wide toy curve model, `d = 2`, nonce `k = 3` and a
constant SHA-1 giving digest 1. -/
theorem C1_witness :
    (natToMinBE (2 ^ 159 + 2)).length = 20 ∧
    ((beBytesToNat (((crypto_create_host_key_pair cmWide [2] (List.replicate 40 0)).2).take 20),
      beBytesToNat (((crypto_create_host_key_pair cmWide [2] (List.replicate 40 0)).2).drop 20)) =
        cmWide.affine (scalarMultiply (beBytesToNat (([2] : List Nat).take 20)) cmWide.G) ∧
     _aacs_verify (gcryEcdsa cmWide (fun _ => List.replicate 19 0 ++ [1]) 3)
       (crypto_aacs_sign (gcryEcdsa cmWide (fun _ => List.replicate 19 0 ++ [1]) 3) []
         [2] (List.replicate 20 0)
         ((crypto_create_host_key_pair cmWide [2] (List.replicate 40 0)).2)
         (List.replicate 40 0))
       (((crypto_create_host_key_pair cmWide [2] (List.replicate 40 0)).2).take 20)
       (((crypto_create_host_key_pair cmWide [2] (List.replicate 40 0)).2).drop 20)
       (List.replicate 20 0 ++ (crypto_create_host_key_pair cmWide [2] (List.replicate 40 0)).2) =
        true) :=
  ⟨by decide,
   C1_sign_verify_roundtrip cmWide (fun _ => List.replicate 19 0 ++ [1]) 3
     [2] (List.replicate 20 0) [] (List.replicate 40 0) (List.replicate 40 0)
     (2 ^ 159 + 2) (2 ^ 158 + 2) 1
     (by decide)
     (by
       have h1 : ((5 * 2 ^ 156 : ℕ) : ZMod 5) = 0 := by decide
       show (5 * 2 ^ 156 : ℕ) • (1 : ZMod 5) = 0
       rw [nsmul_eq_mul, h1, zero_mul])
     (by decide) (by decide) (by decide)
     (by decide) (by decide) (by decide) (by decide) (by decide) (by decide)
     (by decide) (by decide) (by decide) (by decide) (by decide) (by decide)⟩

/-- Counterexample for C1 as stated: when an affine coordinate of `d × G` has
a minimal encoding shorter than 20 bytes, `gcry_mpi_print` leaves the stale
bytes of the caller's buffer in place, and the produced public point does not
equal `d × G` recomputed independently — the round-trip claim fails without
the amendment's full-length side conditions. -/
theorem C1_counterexample :
    (beBytesToNat (((crypto_create_host_key_pair cmSmallX [2] (List.replicate 40 1)).2).take 20),
     beBytesToNat (((crypto_create_host_key_pair cmSmallX [2] (List.replicate 40 1)).2).drop 20)) ≠
      cmSmallX.affine (scalarMultiply (beBytesToNat (([2] : List Nat).take 20)) cmSmallX.G) := by
  decide
